import Mathlib

/-!
# GitInsight-MCP: formal model and verification

A shallow embedding in Lean 4 of the core logic of the GitInsight MCP server
(TypeScript sources under `src/`): the GitHub-client derivations
(language statistics, contribution streak, most-starred/most-forked reduce,
cross-repository commit merging, search filtering), the in-memory TTL cache,
and the per-tool result envelopes.

Modelling conventions:
* TypeScript numbers that hold counts are `Nat`; timestamps and calendar-day
  numbers are `Int` (an ISO-8601 date-time string is represented by its epoch
  value; a date-only string by its day number).  Percentage arithmetic, which
  the source performs with `Math.round` on JS floats, is modelled over `ℚ`
  with `Math.round x = ⌊x + 1/2⌋` (JS rounds half toward +∞).
* `Array.prototype.sort(cmp)` is modelled by a stable insertion sort
  (`sortWith`): ECMAScript sort is stable, so on any comparator that induces a
  total preorder the result is uniquely determined, and a stable insertion
  sort computes it.
* Fallible remote calls are modelled as `Except String α` values supplied as
  parameters; `try/catch` becomes a `match` on that value.
* `String.prototype.toLowerCase` is modelled by `lowerString` (per-character
  `Char.toLower`), and `String.prototype.includes` by `strIncludes`.
-/

/-- Stable insertion of `x` into a list sorted by the boolean relation `le`:
`x` goes in front of the first element `y` with `le x y`.  With
`le a b := key b ≤ key a` this realises a stable descending sort step. -/
def insertSorted {α : Type} (le : α → α → Bool) (x : α) : List α → List α
  | [] => [x]
  | y :: ys => if le x y then x :: y :: ys else y :: insertSorted le x ys

/-- Stable insertion sort; models ECMAScript `Array.prototype.sort` for a
comparator whose induced relation `le` is a total preorder. -/
def sortWith {α : Type} (le : α → α → Bool) : List α → List α
  | [] => []
  | x :: xs => insertSorted le x (sortWith le xs)


/-- JS `String.prototype.toLowerCase` (per-character lowering). -/
def lowerString (s : String) : String := ⟨s.data.map Char.toLower⟩

/-- Character-list substring containment. -/
def charsInclude : List Char → List Char → Bool
  | _, [] => true
  | [], _ :: _ => false
  | x :: xs, c :: cs => (List.isPrefixOf (c :: cs) (x :: xs)) || charsInclude xs (c :: cs)

/-- JS `String.prototype.includes`: does `sub` occur contiguously in `s`? -/
def strIncludes (s sub : String) : Bool := charsInclude s.data sub.data


/-! ## Data model (`src/types/index.ts`) -/

/-- `RepositoryMetadata` from `src/types/index.ts` / `listRepositories`'s
normalisation.  `last_updated` and `created_at` are ISO date-time strings in
the source, modelled by their epoch values. -/
structure RepositoryMetadata where
  name : String
  full_name : String
  description : Option String
  url : String
  stars : Nat
  forks : Nat
  language : Option String
  topics : List String
  last_updated : Int
  created_at : Int
  open_issues : Nat
  homepage : Option String
deriving DecidableEq, Repr, Inhabited

/-- A commit as delivered by the remote API's `listCommits` (the fields the
client reads).  `authorDate` is the ISO date-time string modelled by its epoch
value in milliseconds; `authorName` is optional, mirroring
`commit.commit.author?.name`. -/
structure RawCommit where
  sha : String
  message : String
  authorName : Option String
  authorDate : Int
  url : String
deriving DecidableEq, Repr

/-- `CommitMetadata` from `src/types/index.ts`. -/
structure CommitMetadata where
  sha : String
  message : String
  author : String
  date : Int
  url : String
  repository : String
deriving DecidableEq, Repr

/-- `LanguageStats` from `src/types/index.ts`; `percentage` is a JS number
with two-decimal rounding, modelled in `ℚ`. -/
structure LanguageStats where
  language : String
  count : Nat
  repositories : List String
  percentage : ℚ
deriving DecidableEq, Repr

/-- `RepositoryStats` from `src/types/index.ts`. -/
structure RepositoryStats where
  total_repositories : Nat
  total_stars : Nat
  total_forks : Nat
  total_size_kb : Nat
  languages : List LanguageStats
  most_starred_repo : Option RepositoryMetadata
  most_forked_repo : Option RepositoryMetadata
  recently_updated : List RepositoryMetadata
  total_open_issues : Nat
deriving DecidableEq, Repr

/-- `ContributionActivity` from `src/types/index.ts`; `most_active_day` is a
UTC date string in the source (`'N/A'` when there are no commits), modelled as
an optional day number. -/
structure ContributionActivity where
  total_commits : Nat
  total_prs : Nat
  total_issues : Nat
  total_reviews : Nat
  repositories_contributed_to : Nat
  most_active_day : Option Int
  contribution_streak : Nat
deriving DecidableEq, Repr

/-- `ErrorResponse` from `src/types/index.ts` (`details` left abstract as an
optional string). -/
structure ErrorResponse where
  error : String
  message : String
  details : Option String
  timestamp : String
deriving DecidableEq, Repr

/-- `ToolResult<T>` from `src/types/index.ts`: the uniform envelope.  Fields
absent in the source (e.g. `data` on failure) are `none`. -/
structure ToolResult (α : Type) where
  success : Bool
  data : Option α
  error : Option ErrorResponse
  cached : Option Bool
  timestamp : String

/-! ## Utilities (`src/utils.ts`) -/

/-- `createErrorResponse` from `src/utils.ts`; the `new Date().toISOString()`
timestamp is supplied as the parameter `now`. -/
def createErrorResponse (error message : String) (now : String) : ErrorResponse :=
  { error := error, message := message, details := none, timestamp := now }

/-- `calculatePercentage` from `src/utils.ts`:
`if (total === 0) return 0; return Math.round((value / total) * 100 * 100) / 100`.
JS `Math.round x = ⌊x + 1/2⌋`. -/
def calculatePercentage (value total : Nat) : ℚ :=
  if total = 0 then 0
  else (⌊(value : ℚ) / (total : ℚ) * 100 * 100 + 1/2⌋ : ℤ) / 100

/-! ## Cache (`src/cache.ts`)

The `CacheService` in `src/cache.ts` delegates storage, TTL bookkeeping and
expiry to the third-party `node-cache` package, which is not part of this
repository's sources. -/

/-- Modelled from the spec: a cache entry is "(payload, insertion time, ttl)"
(§4.1); the `node-cache` internals holding it are not in `src/`. -/
structure CacheEntry (α : Type) where
  payload : α
  insertedAt : Int
  ttl : Int

/-- Modelled from the spec: the cache is "a mapping from string key to
(payload, insertion time, ttl)" (§4.1); earlier entries shadow later ones. -/
def CacheState (α : Type) : Type := List (String × CacheEntry α)

/-- Modelled from the spec: `set(key, value, ttl=default)` records the payload
with the current insertion time and ttl (§4.1). -/
def cacheSet {α : Type} (st : CacheState α) (now : Int) (k : String) (v : α)
    (ttl : Int) : CacheState α :=
  (k, { payload := v, insertedAt := now, ttl := ttl }) :: st

/-- Modelled from the spec: `get` performs a lazy expiry check — an entry with
`now - insertion_time >= ttl` is a miss, "so a sweep lag never returns stale
data" (§4.1). -/
def cacheGet {α : Type} (st : CacheState α) (now : Int) (k : String) : Option α :=
  match st.find? (fun e => e.1 == k) with
  | some e => if e.2.ttl ≤ now - e.2.insertedAt then none else some e.2.payload
  | none => none

/-! ## GitHub client derivations (`src/github-client.ts`) -/

/-- One `forEach` step of the language grouping in `getRepositoryStats`:
append `name` to the bucket of `lang` in the insertion-ordered map
(`Map<string, string[]>`). -/
def addLanguage : List (String × List String) → String → String →
    List (String × List String)
  | [], lang, name => [(lang, [name])]
  | (l, ns) :: rest, lang, name =>
    if l = lang then (l, ns ++ [name]) :: rest
    else (l, ns) :: addLanguage rest lang name

/-- The `languageMap` of `getRepositoryStats`: group repository names by
primary language; `if (repo.language)` is JS truthiness, skipping both a null
and an empty-string language. -/
def buildLanguageMap (repos : List RepositoryMetadata) : List (String × List String) :=
  repos.foldl
    (fun m repo =>
      match repo.language with
      | some lang => if lang = "" then m else addLanguage m lang repo.name
      | none => m)
    []

/-- The `languages` array of `getRepositoryStats`: per-language stats with
percentage over the **full** repository count, sorted descending by count
(`.sort((a, b) => b.count - a.count)`, a stable sort). -/
def languagesOf (repos : List RepositoryMetadata) : List LanguageStats :=
  sortWith (fun a b => decide (b.count ≤ a.count))
    ((buildLanguageMap repos).map (fun e =>
      { language := e.1
        count := e.2.length
        repositories := e.2
        percentage := calculatePercentage e.2.length repos.length }))

/-- The `reduce` pattern of `getRepositoryStats` for most-starred/most-forked:
`repos.reduce((max, repo) => f repo > (max?.f || 0) ? repo : max, repos[0] || null)`.
For a non-empty list the accumulator is never null and `f`-counts are
non-negative naturals, so `(max?.f || 0)` is the accumulator's count. -/
def reduceMaxBy (f : RepositoryMetadata → Nat) (repos : List RepositoryMetadata) :
    Option RepositoryMetadata :=
  match repos with
  | [] => none
  | r0 :: _ => some (repos.foldl (fun mx r => if f r > f mx then r else mx) r0)

/-- `mostStarred` of `getRepositoryStats`. -/
def mostStarredRepo (repos : List RepositoryMetadata) : Option RepositoryMetadata :=
  reduceMaxBy (fun r => r.stars) repos

/-- `mostForked` of `getRepositoryStats`. -/
def mostForkedRepo (repos : List RepositoryMetadata) : Option RepositoryMetadata :=
  reduceMaxBy (fun r => r.forks) repos

/-- `recentlyUpdated` of `getRepositoryStats`: sort a copy descending by
update time, take the first 5. -/
def recentlyUpdated (repos : List RepositoryMetadata) : List RepositoryMetadata :=
  (sortWith (fun a b => decide (b.last_updated ≤ a.last_updated)) repos).take 5

/-- The pure derivation at the heart of `GitHubClient.getRepositoryStats`,
from the fetched repository list (`total_size_kb` is hard-coded 0 in the
source). -/
def getRepositoryStats (repos : List RepositoryMetadata) : RepositoryStats :=
  { total_repositories := repos.length
    total_stars := (repos.map (fun r => r.stars)).sum
    total_forks := (repos.map (fun r => r.forks)).sum
    total_size_kb := 0
    languages := languagesOf repos
    most_starred_repo := mostStarredRepo repos
    most_forked_repo := mostForkedRepo repos
    recently_updated := recentlyUpdated repos
    total_open_issues := (repos.map (fun r => r.open_issues)).sum }

/-- The per-commit normalisation of `getRecentCommits`:
`author: commit.commit.author?.name || 'Unknown'`, `repository: repoName`.
(The source also guards the date with `|| ''`; the GitHub API always supplies
an author date, so the date is modelled as present.) -/
def mkCommitMetadata (c : RawCommit) (repoName : String) : CommitMetadata :=
  { sha := c.sha
    message := c.message
    author := c.authorName.getD "Unknown"
    date := c.authorDate
    url := c.url
    repository := repoName }

/-- The cross-repository branch of `GitHubClient.getRecentCommits` (no
repository name given).  `commitsOf r` models the remote author-filtered
commit history of repository `r` (newest first, as the API delivers it), or a
per-repository fetch failure; a `listCommits` call with `per_page: n` returns
its first `n` entries.  The `try/catch` around each per-repository fetch maps
a failure to `[]`.  The merged list is sorted descending by commit date
(`(a, b) => new Date(b.date).getTime() - new Date(a.date).getTime()`) and
truncated to `limit`. -/
def crossRepoCommits (repos : List RepositoryMetadata)
    (commitsOf : String → Except String (List RawCommit)) (limit : Nat) :
    List CommitMetadata :=
  let allCommits := (repos.take 10).map (fun repo =>
    match commitsOf repo.name with
    | .ok data => (data.take 5).map (fun c => mkCommitMetadata c repo.name)
    | .error _ => [])
  (sortWith (fun a b => decide (b.date ≤ a.date)) allCommits.flatten).take limit

/-- The single-repository branch of `GitHubClient.getRecentCommits`
(`per_page: limit`, no re-sorting). -/
def singleRepoCommits (repoName : String)
    (commitsOf : String → Except String (List RawCommit)) (limit : Nat) :
    Except String (List CommitMetadata) :=
  match commitsOf repoName with
  | .ok data => .ok ((data.take limit).map (fun c => mkCommitMetadata c repoName))
  | .error e => .error e

/-- `GitHubClient.getRecentCommits` (cache checks elided; the repository-list
fetch outcome is the parameter `reposResult`).  In the cross-repository branch
only the repository-list fetch can fail — per-repository commit failures are
swallowed inside `crossRepoCommits`. -/
def clientGetRecentCommits (repoName : Option String)
    (reposResult : Except String (List RepositoryMetadata))
    (commitsOf : String → Except String (List RawCommit)) (limit : Nat) :
    Except String (List CommitMetadata) :=
  match repoName with
  | some r => singleRepoCommits r commitsOf limit
  | none =>
    match reposResult with
    | .ok repos => .ok (crossRepoCommits repos commitsOf limit)
    | .error e => .error e

/-- `GitHubClient.getRepositoryReadme`: a cached value is returned as-is; on a
fetch failure the `catch` returns the empty string (`// Return empty string if
README doesn't exist`). -/
def clientGetRepositoryReadme (cached : Option String)
    (fetched : Except String String) : String :=
  match cached with
  | some c => c
  | none =>
    match fetched with
    | .ok content => content
    | .error _ => ""

/-! ### Contribution streak (`GitHubClient.calculateStreak`) -/

/-- JS `filter((date, index, self) => self.indexOf(date) === index)`: keep the
first occurrence of each value, preserving order. -/
def dedupFirst {α : Type} [DecidableEq α] : List α → List α
  | [] => []
  | x :: xs => x :: dedupFirst (xs.filter (fun y => y ≠ x))
termination_by l => l.length
decreasing_by
  simp only [List.length_cons]
  have := List.length_filter_le (fun b => decide (b ≠ y)) ys
  omega

/-- The scan loop of `calculateStreak` over the deduplicated,
descending-sorted day numbers: `diffDays === 1` increments, `diffDays > 1`
breaks, anything else moves on without incrementing. -/
def streakLoop : List Int → Nat → Nat
  | d1 :: d2 :: rest, streak =>
    if d1 - d2 = 1 then streakLoop (d2 :: rest) (streak + 1)
    else if d1 - d2 > 1 then streak
    else streakLoop (d2 :: rest) streak
  | _, streak => streak

/-- The body of `calculateStreak` after the commit dates have been projected
to calendar days: deduplicate (first occurrence wins), sort descending
(`(a, b) => new Date(b).getTime() - new Date(a).getTime()`; the days are
distinct after deduplication, so the stable sort yields the unique strictly
descending order), then scan starting from streak 1. -/
def streakFromDates (dates : List Int) : Nat :=
  streakLoop (sortWith (fun a b => decide (b ≤ a)) (dedupFirst dates)) 1

/-- `new Date(t).toISOString().split('T')[0]` projects an epoch-millisecond
value to its UTC calendar day: floor division by 86 400 000. -/
def dayNumber (t : Int) : Int := Int.fdiv t 86400000

/-- `GitHubClient.calculateStreak`. -/
def calculateStreak (commits : List CommitMetadata) : Nat :=
  if commits = [] then 0
  else streakFromDates (commits.map (fun c => dayNumber c.date))

/-- One step of the `dayCount` accumulation in `findMostActiveDay`. -/
def addCount : List (Int × Nat) → Int → List (Int × Nat)
  | [], d => [(d, 1)]
  | (k, c) :: rest, d =>
    if k = d then (k, c + 1) :: rest else (k, c) :: addCount rest d

/-- `GitHubClient.findMostActiveDay`: count commits per UTC day, return the
first day attaining the strictly-largest count (`'N/A'`, here `none`, for an
empty sample). -/
def findMostActiveDay (commits : List CommitMetadata) : Option Int :=
  if commits = [] then none
  else
    let counts := (commits.map (fun c => dayNumber c.date)).foldl addCount []
    (counts.foldl
      (fun acc e => if e.2 > acc.2 then (some e.1, e.2) else acc)
      ((none : Option Int), 0)).1

/-- The pure derivation of `GitHubClient.getContributionActivity` from the
bounded commit sample (`new Set(...).size` is the number of distinct
repository names). -/
def getContributionActivity (commits : List CommitMetadata) : ContributionActivity :=
  { total_commits := commits.length
    total_prs := 0
    total_issues := 0
    total_reviews := 0
    repositories_contributed_to := (dedupFirst (commits.map (fun c => c.repository))).length
    most_active_day := findMostActiveDay commits
    contribution_streak := calculateStreak commits }

/-! ### Search (`GitHubClient.searchProjectsByTech`) -/

inductive SortField : Type
  | stars | forks | updated | created | name
deriving DecidableEq, Repr

inductive SortOrder : Type
  | asc | desc
deriving DecidableEq, Repr

/-- `SearchFilters` from `src/types/index.ts`. -/
structure SearchFilters where
  language : Option String
  topic : Option String
  min_stars : Option Nat
  sort_by : Option SortField
  order : Option SortOrder
deriving Repr

/-- The sort comparator of `searchProjectsByTech` as a "may come before"
relation: with `order = 'asc'` the comparator is `aVal > bVal ? 1 : -1`, so
`a` may precede `b` iff `aVal ≤ bVal`; with `'desc'` iff `bVal ≤ aVal`.
The `'name'` key compares lowercased names. -/
def searchLe (sf : SortField) (ord : SortOrder) (a b : RepositoryMetadata) : Bool :=
  match sf, ord with
  | .stars, .asc => decide (a.stars ≤ b.stars)
  | .stars, .desc => decide (b.stars ≤ a.stars)
  | .forks, .asc => decide (a.forks ≤ b.forks)
  | .forks, .desc => decide (b.forks ≤ a.forks)
  | .updated, .asc => decide (a.last_updated ≤ b.last_updated)
  | .updated, .desc => decide (b.last_updated ≤ a.last_updated)
  | .created, .asc => decide (a.created_at ≤ b.created_at)
  | .created, .desc => decide (b.created_at ≤ a.created_at)
  | .name, .asc => decide (lowerString a.name ≤ lowerString b.name)
  | .name, .desc => decide (lowerString b.name ≤ lowerString a.name)

/-- `GitHubClient.searchProjectsByTech` on a fetched repository list: three
sequential optional filters (`if (filters.language)` and `if (filters.topic)`
are JS truthiness checks, so an empty-string filter is skipped;
`min_stars !== undefined` is a plain presence check), then an optional sort
(`order` defaults to `'desc'`). -/
def searchProjectsByTech (filters : SearchFilters)
    (repos : List RepositoryMetadata) : List RepositoryMetadata :=
  let r1 := match filters.language with
    | some lang =>
      if lang = "" then repos
      else repos.filter (fun repo =>
        match repo.language with
        | some l => lowerString l == lowerString lang
        | none => false)
    | none => repos
  let r2 := match filters.topic with
    | some top =>
      if top = "" then r1
      else r1.filter (fun repo =>
        repo.topics.any (fun t => strIncludes (lowerString t) (lowerString top)))
    | none => r1
  let r3 := match filters.min_stars with
    | some m => r2.filter (fun repo => decide (m ≤ repo.stars))
    | none => r2
  match filters.sort_by with
  | some sf => sortWith (searchLe sf (filters.order.getD .desc)) r3
  | none => r3

/-! ## Tool layer (`src/tools/*.ts`)

Each tool wraps one client call in `try/catch` and produces the uniform
`ToolResult` envelope.  The client call's outcome is supplied as an
`Except String` parameter; `new Date().toISOString()` is the parameter `now`.
An absent argument field is `none`; the TS destructuring defaults
(`use_cache = true`, `limit = 50`, `include_readme = false`) are applied with
`Option.getD`. -/

/-- `ListRepositoriesArgs` (`sort_by: 'stars' | 'forks' | 'updated' | 'name'`,
a subset of `SortField`). -/
structure ListRepositoriesArgs where
  use_cache : Option Bool
  sort_by : Option SortField
  limit : Option Nat

/-- The in-tool sort of `list_repositories`: descending for stars/forks/
updated, `localeCompare` ascending for names (modelled lexicographically);
`created` falls into the `default: return 0` arm, so every pair may stay. -/
def listRepoLe (sf : SortField) (a b : RepositoryMetadata) : Bool :=
  match sf with
  | .stars => decide (b.stars ≤ a.stars)
  | .forks => decide (b.forks ≤ a.forks)
  | .updated => decide (b.last_updated ≤ a.last_updated)
  | .name => decide (a.name ≤ b.name)
  | .created => true

/-- `listRepositories` from `src/tools/list-repositories.ts`. -/
def listRepositoriesTool (args : ListRepositoriesArgs)
    (clientResult : Except String (List RepositoryMetadata)) (now : String) :
    ToolResult (List RepositoryMetadata) :=
  match clientResult with
  | .ok repos0 =>
    let repos1 := match args.sort_by with
      | some sf => sortWith (listRepoLe sf) repos0
      | none => repos0
    let repos2 := match args.limit with
      | some n => if 0 < n then repos1.take n else repos1
      | none => repos1
    { success := true, data := some repos2, error := none
      cached := some (args.use_cache.getD true), timestamp := now }
  | .error e =>
    { success := false, data := none
      error := some (createErrorResponse "LIST_REPOSITORIES_ERROR"
        ("Failed to list repositories: " ++ e) now)
      cached := none, timestamp := now }

structure GetRepositoryDetailsArgs where
  repository_name : String
  use_cache : Option Bool
  include_readme : Option Bool

/-- `RepositoryDetailsResponse` from `src/tools/get-repository-details.ts`
(the raw `Repository` payload is represented by its metadata projection). -/
structure RepositoryDetailsResponse where
  repository : RepositoryMetadata
  readme : Option String
deriving DecidableEq, Repr

/-- `getRepositoryDetails` from `src/tools/get-repository-details.ts`.  A
missing (empty, i.e. falsy) `repository_name` throws inside the `try`, which
the `catch` converts to the failure envelope.  With `include_readme` the
README is obtained through `clientGetRepositoryReadme`, which cannot fail. -/
def getRepositoryDetailsTool (args : GetRepositoryDetailsArgs)
    (repoResult : Except String RepositoryMetadata)
    (readmeCached : Option String) (readmeFetched : Except String String)
    (now : String) : ToolResult RepositoryDetailsResponse :=
  if args.repository_name = "" then
    { success := false, data := none
      error := some (createErrorResponse "GET_REPOSITORY_DETAILS_ERROR"
        ("Failed to get repository details: " ++ "repository_name is required") now)
      cached := none, timestamp := now }
  else
    match repoResult with
    | .ok repo =>
      let resp : RepositoryDetailsResponse :=
        if args.include_readme.getD false then
          { repository := repo
            readme := some (clientGetRepositoryReadme readmeCached readmeFetched) }
        else { repository := repo, readme := none }
      { success := true, data := some resp, error := none
        cached := some (args.use_cache.getD true), timestamp := now }
    | .error e =>
      { success := false, data := none
        error := some (createErrorResponse "GET_REPOSITORY_DETAILS_ERROR"
          ("Failed to get repository details: " ++ e) now)
        cached := none, timestamp := now }

structure GetRecentCommitsArgs where
  repository_name : Option String
  limit : Option Nat
  use_cache : Option Bool

/-- `getRecentCommits` from `src/tools/get-recent-commits.ts`. -/
def getRecentCommitsTool (args : GetRecentCommitsArgs)
    (reposResult : Except String (List RepositoryMetadata))
    (commitsOf : String → Except String (List RawCommit)) (now : String) :
    ToolResult (List CommitMetadata) :=
  match clientGetRecentCommits args.repository_name reposResult commitsOf
      (args.limit.getD 50) with
  | .ok commits =>
    { success := true, data := some commits, error := none
      cached := some (args.use_cache.getD true), timestamp := now }
  | .error e =>
    { success := false, data := none
      error := some (createErrorResponse "GET_RECENT_COMMITS_ERROR"
        ("Failed to get recent commits: " ++ e) now)
      cached := none, timestamp := now }

structure GetRepositoryStatsArgs where
  use_cache : Option Bool

/-- `getRepositoryStats` from `src/tools/get-repository-stats.ts`; the stats
derivation itself is pure, so the only failure source is the repository-list
fetch. -/
def getRepositoryStatsTool (args : GetRepositoryStatsArgs)
    (reposResult : Except String (List RepositoryMetadata)) (now : String) :
    ToolResult RepositoryStats :=
  match reposResult with
  | .ok repos =>
    { success := true, data := some (getRepositoryStats repos), error := none
      cached := some (args.use_cache.getD true), timestamp := now }
  | .error e =>
    { success := false, data := none
      error := some (createErrorResponse "GET_REPOSITORY_STATS_ERROR"
        ("Failed to get repository stats: " ++ e) now)
      cached := none, timestamp := now }

/-- `SearchProjectsByTechArgs`: the filter fields plus `use_cache`. -/
structure SearchProjectsByTechArgs where
  filters : SearchFilters
  use_cache : Option Bool

/-- `searchProjectsByTech` from `src/tools/search-projects-by-tech.ts`. -/
def searchProjectsByTechTool (args : SearchProjectsByTechArgs)
    (reposResult : Except String (List RepositoryMetadata)) (now : String) :
    ToolResult (List RepositoryMetadata) :=
  match reposResult with
  | .ok repos =>
    { success := true, data := some (searchProjectsByTech args.filters repos)
      error := none, cached := some (args.use_cache.getD true), timestamp := now }
  | .error e =>
    { success := false, data := none
      error := some (createErrorResponse "SEARCH_PROJECTS_ERROR"
        ("Failed to search projects: " ++ e) now)
      cached := none, timestamp := now }

structure GetContributionActivityArgs where
  use_cache : Option Bool

/-- `getContributionActivity` from the contribution-activity tool module; the
activity derivation is pure over the commit sample, so the only failure source
is the commit fetch (`getRecentCommits(undefined, 100, useCache)`). -/
def getContributionActivityTool (args : GetContributionActivityArgs)
    (commitsResult : Except String (List CommitMetadata)) (now : String) :
    ToolResult ContributionActivity :=
  match commitsResult with
  | .ok commits =>
    { success := true, data := some (getContributionActivity commits)
      error := none, cached := some (args.use_cache.getD true), timestamp := now }
  | .error e =>
    { success := false, data := none
      error := some (createErrorResponse "GET_CONTRIBUTION_ACTIVITY_ERROR"
        ("Failed to get contribution activity: " ++ e) now)
      cached := none, timestamp := now }


/-! ## Spec-side characterisation used in claim statements -/

/-- The maximum of `f` over a repository list (0 for the empty list); the
"earliest repository attaining the maximum" is then `l.find?` of the
repositories whose `f`-count equals it. -/
def maxF (f : RepositoryMetadata → Nat) (l : List RepositoryMetadata) : Nat :=
  (l.map f).foldr max 0

/-- JS truthiness of `repo.language` (`if (repo.language)`): present and
non-empty. -/
def hasLanguage (r : RepositoryMetadata) : Bool :=
  match r.language with
  | some l => decide (l ≠ "")
  | none => false

/-- The uniform envelope discipline of spec §6: every outcome carries the
invocation timestamp; a success has `success = true`, a data payload and no
error; a failure has `success = false`, no data, and an error object with the
tool's error-code string, a human-readable message and the same timestamp. -/
def envelopeOk {α : Type} (r : ToolResult α) (code : String) (now : String) : Prop :=
  r.timestamp = now ∧
  ((r.success = true ∧ r.data.isSome ∧ r.error = none) ∨
   (r.success = false ∧ r.data = none ∧
     ∃ msg, r.error = some
       { error := code, message := msg, details := none, timestamp := now }))

/-! ## Helper lemmas about the generic list machinery -/

theorem insertSorted_cons_pos {α : Type} (le : α → α → Bool) (x y : α) (ys : List α)
    (h : le x y = true) : insertSorted le x (y :: ys) = x :: y :: ys := by
  simp [insertSorted, h]

theorem insertSorted_cons_neg {α : Type} (le : α → α → Bool) (x y : α) (ys : List α)
    (h : le x y = false) : insertSorted le x (y :: ys) = y :: insertSorted le x ys := by
  simp [insertSorted, h]

theorem insertSorted_perm {α : Type} (le : α → α → Bool) (x : α) (l : List α) :
    (insertSorted le x l).Perm (x :: l) := by
  induction l with
  | nil => simp [insertSorted]
  | cons y ys ih =>
    cases h : le x y with
    | true => rw [insertSorted_cons_pos le x y ys h]
    | false =>
      rw [insertSorted_cons_neg le x y ys h]
      exact (List.Perm.cons y ih).trans (List.Perm.swap x y ys)

theorem sortWith_perm {α : Type} (le : α → α → Bool) (l : List α) :
    (sortWith le l).Perm l := by
  induction l with
  | nil => simp [sortWith]
  | cons x xs ih =>
    exact (insertSorted_perm le x (sortWith le xs)).trans (List.Perm.cons x ih)

theorem mem_insertSorted {α : Type} (le : α → α → Bool) (x a : α) (l : List α) :
    a ∈ insertSorted le x l ↔ a = x ∨ a ∈ l := by
  have := (insertSorted_perm le x l).mem_iff (a := a)
  simpa using this

theorem mem_sortWith {α : Type} (le : α → α → Bool) (a : α) (l : List α) :
    a ∈ sortWith le l ↔ a ∈ l := (sortWith_perm le l).mem_iff

theorem insertSorted_pairwise {α : Type} (le : α → α → Bool)
    (htot : ∀ a b, le a b = true ∨ le b a = true)
    (htrans : ∀ a b c, le a b = true → le b c = true → le a c = true)
    (x : α) (l : List α) (hl : l.Pairwise (fun a b => le a b = true)) :
    (insertSorted le x l).Pairwise (fun a b => le a b = true) := by
  induction l with
  | nil => simp [insertSorted]
  | cons y ys ih =>
    rcases hl with _ | ⟨hy, hys⟩
    cases h : le x y with
    | true =>
      rw [insertSorted_cons_pos le x y ys h]
      refine List.Pairwise.cons ?_ (List.Pairwise.cons hy hys)
      intro b hb
      rcases List.mem_cons.mp hb with rfl | hb
      · exact h
      · exact htrans x y b h (hy _ hb)
    | false =>
      rw [insertSorted_cons_neg le x y ys h]
      have hyx : le y x = true := (htot x y).resolve_left (by simp [h])
      refine List.Pairwise.cons ?_ (ih hys)
      intro b hb
      rw [mem_insertSorted] at hb
      rcases hb with rfl | hb
      · exact hyx
      · exact hy _ hb

theorem sortWith_pairwise {α : Type} (le : α → α → Bool)
    (htot : ∀ a b, le a b = true ∨ le b a = true)
    (htrans : ∀ a b c, le a b = true → le b c = true → le a c = true)
    (l : List α) :
    (sortWith le l).Pairwise (fun a b => le a b = true) := by
  induction l with
  | nil => simp [sortWith]
  | cons x xs ih => exact insertSorted_pairwise le htot htrans x _ ih

/-- Triangle inequality for sums of list maps over `ℚ`. -/
theorem abs_list_sum_sub_le {α : Type} (f g : α → ℚ) (l : List α) :
    |(l.map f).sum - (l.map g).sum| ≤ (l.map (fun a => |f a - g a|)).sum := by
  induction l with
  | nil => simp
  | cons x xs ih =>
    simp only [List.map_cons, List.sum_cons]
    have h1 : f x + (xs.map f).sum - (g x + (xs.map g).sum)
        = (f x - g x) + ((xs.map f).sum - (xs.map g).sum) := by ring
    rw [h1]
    calc |(f x - g x) + ((xs.map f).sum - (xs.map g).sum)|
        ≤ |f x - g x| + |(xs.map f).sum - (xs.map g).sum| := abs_add _ _
      _ ≤ |f x - g x| + (xs.map (fun a => |f a - g a|)).sum := by
          exact add_le_add_left ih _
/-! ## Claim theorems -/

/-- C6: for every key `k` and value `v`, `set(k, v)` followed immediately by
`get(k)` returns `v`; once the entry's TTL has elapsed (`ttl ≤ now' - now`),
`get(k)` is a miss; and in general no entry is ever served past its TTL —
a read after expiry is a miss, never a stale value. -/
theorem cache_set_get_ttl {α : Type} (st : CacheState α) (now now' : Int)
    (k : String) (v : α) (ttl : Int) (httl : 0 < ttl) :
    cacheGet (cacheSet st now k v ttl) now k = some v ∧
    (ttl ≤ now' - now → cacheGet (cacheSet st now k v ttl) now' k = none) ∧
    (∀ (st2 : CacheState α) (t : Int) (e : String × CacheEntry α),
      st2.find? (fun x => x.1 == k) = some e →
      e.2.ttl ≤ t - e.2.insertedAt →
      cacheGet st2 t k = none) := by
  refine ⟨?_, ?_, ?_⟩
  · simp [cacheGet, cacheSet, List.find?]
    omega
  · intro h
    simp [cacheGet, cacheSet, List.find?, h]
  · intro st2 t e hfind hexp
    simp [cacheGet, hfind, hexp]

/-- Closed witness for `cache_set_get_ttl`. -/
theorem cache_set_get_ttl_witness :
    cacheGet (cacheSet ([] : CacheState Nat) 100 "k" 7 3600) 100 "k" = some 7 ∧
    ((3600 : Int) ≤ 3700 - 100 →
      cacheGet (cacheSet ([] : CacheState Nat) 100 "k" 7 3600) 3700 "k" = none) ∧
    (∀ (st2 : CacheState Nat) (t : Int) (e : String × CacheEntry Nat),
      st2.find? (fun x => x.1 == "k") = some e →
      e.2.ttl ≤ t - e.2.insertedAt →
      cacheGet st2 t "k" = none) :=
  cache_set_get_ttl ([] : CacheState Nat) 100 3700 "k" 7 3600 (by norm_num)

/-- C7: `getRepositoryReadme` degrades a failed README fetch to the empty
string rather than an error, and `get_repository_details` with
`include_readme = true` therefore still succeeds, carrying the empty README
content. -/
theorem readme_absence_not_an_error (e : String) (args : GetRepositoryDetailsArgs)
    (repo : RepositoryMetadata) (now : String)
    (hname : args.repository_name ≠ "")
    (hinc : args.include_readme = some true) :
    clientGetRepositoryReadme none (.error e) = "" ∧
    (getRepositoryDetailsTool args (.ok repo) none (.error e) now).success = true ∧
    (getRepositoryDetailsTool args (.ok repo) none (.error e) now).data =
      some { repository := repo, readme := some "" } := by
  refine ⟨rfl, ?_, ?_⟩ <;>
    simp [getRepositoryDetailsTool, hname, hinc, clientGetRepositoryReadme]

/-- Closed witness for `readme_absence_not_an_error`. -/
theorem readme_absence_not_an_error_witness :
    clientGetRepositoryReadme none (.error "404") = "" ∧
    (getRepositoryDetailsTool ⟨"r", none, some true⟩ (.ok default) none
      (.error "404") "T").success = true ∧
    (getRepositoryDetailsTool ⟨"r", none, some true⟩ (.ok default) none
      (.error "404") "T").data =
      some { repository := default, readme := some "" } :=
  readme_absence_not_an_error "404" ⟨"r", none, some true⟩ default "T"
    (by simp) rfl

/-- C9: on every successful invocation — i.e. whenever the underlying fetch
outcome is `ok`, whatever value it carries and however it was obtained — the
envelope's `cached` field is the request's `use_cache` argument (default
`true`), for each of the six tools; the actual hit-or-miss status of the
cache plays no part in it. -/
theorem cached_flag_mirrors_request
    (a1 : ListRepositoriesArgs) (repos : List RepositoryMetadata)
    (a2 : GetRepositoryDetailsArgs) (repo : RepositoryMetadata)
    (rc : Option String) (rf : Except String String)
    (a3 : GetRecentCommitsArgs)
    (commitsOf : String → Except String (List RawCommit))
    (a4 : GetRepositoryStatsArgs)
    (a5 : SearchProjectsByTechArgs)
    (a6 : GetContributionActivityArgs) (commits : List CommitMetadata)
    (now : String)
    (hname : a2.repository_name ≠ "")
    (hsingle : ∀ r, a3.repository_name = some r →
      ∃ l, commitsOf r = .ok l) :
    (listRepositoriesTool a1 (.ok repos) now).cached
      = some (a1.use_cache.getD true) ∧
    (getRepositoryDetailsTool a2 (.ok repo) rc rf now).cached
      = some (a2.use_cache.getD true) ∧
    (getRecentCommitsTool a3 (.ok repos) commitsOf now).cached
      = some (a3.use_cache.getD true) ∧
    (getRepositoryStatsTool a4 (.ok repos) now).cached
      = some (a4.use_cache.getD true) ∧
    (searchProjectsByTechTool a5 (.ok repos) now).cached
      = some (a5.use_cache.getD true) ∧
    (getContributionActivityTool a6 (.ok commits) now).cached
      = some (a6.use_cache.getD true) := by
  refine ⟨rfl, ?_, ?_, rfl, rfl, rfl⟩
  · simp [getRepositoryDetailsTool, hname]
  · cases hrn : a3.repository_name with
    | none =>
      simp [getRecentCommitsTool, clientGetRecentCommits, hrn]
    | some r =>
      obtain ⟨l, hl⟩ := hsingle r hrn
      simp [getRecentCommitsTool, clientGetRecentCommits, hrn,
        singleRepoCommits, hl]

/-- Closed witness for `cached_flag_mirrors_request`. -/
theorem cached_flag_mirrors_request_witness :
    (listRepositoriesTool ⟨some false, none, none⟩ (.ok []) "T").cached
      = some ((some false).getD true) ∧
    (getRepositoryDetailsTool ⟨"r", some false, none⟩ (.ok default) none
      (.ok "readme") "T").cached = some ((some false).getD true) ∧
    (getRecentCommitsTool ⟨none, none, some false⟩ (.ok [])
      (fun _ => .ok []) "T").cached = some ((some false).getD true) ∧
    (getRepositoryStatsTool ⟨some false⟩ (.ok []) "T").cached
      = some ((some false).getD true) ∧
    (searchProjectsByTechTool ⟨⟨none, none, none, none, none⟩, some false⟩
      (.ok []) "T").cached = some ((some false).getD true) ∧
    (getContributionActivityTool ⟨some false⟩ (.ok []) "T").cached
      = some ((some false).getD true) :=
  cached_flag_mirrors_request ⟨some false, none, none⟩ []
    ⟨"r", some false, none⟩ default none (.ok "readme")
    ⟨none, none, some false⟩ (fun _ => .ok []) ⟨some false⟩
    ⟨⟨none, none, none, none, none⟩, some false⟩ ⟨some false⟩ [] "T"
    (by simp) (by intro r h; exact absurd h (by simp))

/-- The scan loop never returns less than its running streak. -/
theorem streakLoop_ge (l : List Int) (s : Nat) : s ≤ streakLoop l s := by
  induction l generalizing s with
  | nil => simp [streakLoop]
  | cons d1 rest ih =>
    cases rest with
    | nil => simp [streakLoop]
    | cons d2 rest2 =>
      simp only [streakLoop]
      split
      · exact le_trans (Nat.le_succ s) (ih (s + 1))
      · split
        · exact le_refl s
        · exact ih s

/-- C2: the contribution streak is 3 on three consecutive descending calendar
days, 1 when the second-newest day is two days back, 0 on an empty commit
sample, and at least 1 on any non-empty sample; the scan increments on a
one-day gap and stops permanently on a larger gap. -/
theorem streak_calculation (D : Int) (commits : List CommitMetadata)
    (hne : commits ≠ []) :
    streakFromDates [D, D - 1, D - 2] = 3 ∧
    streakFromDates [D, D - 2] = 1 ∧
    calculateStreak [] = 0 ∧
    1 ≤ calculateStreak commits ∧
    (∀ (d1 d2 : Int) (rest : List Int) (s : Nat),
      (d1 - d2 = 1 → streakLoop (d1 :: d2 :: rest) s = streakLoop (d2 :: rest) (s + 1)) ∧
      (1 < d1 - d2 → streakLoop (d1 :: d2 :: rest) s = s)) := by
  have h1 : (D - 1 : Int) ≠ D := by omega
  have h2 : (D - 2 : Int) ≠ D := by omega
  have h3 : (D - 2 : Int) ≠ D - 1 := by omega
  have hle1 : (D - 1 : Int) ≤ D := by omega
  have hle2 : (D - 2 : Int) ≤ D - 1 := by omega
  have hle3 : (D - 2 : Int) ≤ D := by omega
  refine ⟨?_, ?_, rfl, ?_, ?_⟩
  · have hdedup : dedupFirst [D, D - 1, D - 2] = [D, D - 1, D - 2] := by
      simp [dedupFirst, List.filter, h1, h2, h3]
    have hsort : sortWith (fun a b : Int => decide (b ≤ a)) [D, D - 1, D - 2]
        = [D, D - 1, D - 2] := by
      simp [sortWith, insertSorted, hle1, hle2]
    have hgap1 : D - (D - 1) = 1 := by omega
    have hgap2 : (D - 1) - (D - 2) = 1 := by omega
    simp [streakFromDates, hdedup, hsort, streakLoop, hgap1, hgap2]
  · have hdedup : dedupFirst [D, D - 2] = [D, D - 2] := by
      simp [dedupFirst, List.filter, h2]
    have hsort : sortWith (fun a b : Int => decide (b ≤ a)) [D, D - 2]
        = [D, D - 2] := by
      simp [sortWith, insertSorted, hle3]
    have hgap : D - (D - 2) = 2 := by omega
    simp [streakFromDates, hdedup, hsort, streakLoop, hgap]
  · rw [calculateStreak, if_neg hne]
    exact streakLoop_ge _ 1
  · intro d1 d2 rest s
    constructor
    · intro h
      simp [streakLoop, h]
    · intro h
      have hne1 : d1 - d2 ≠ 1 := by omega
      simp [streakLoop, hne1, h]

/-- Closed witness for `streak_calculation`, at `D = 5` over a one-commit
sample. -/
theorem streak_calculation_witness :
    streakFromDates [5, 5 - 1, 5 - 2] = 3 ∧
    streakFromDates [5, 5 - 2] = 1 ∧
    calculateStreak [] = 0 ∧
    1 ≤ calculateStreak [⟨"s", "m", "a", 86400000, "u", "r"⟩] ∧
    (∀ (d1 d2 : Int) (rest : List Int) (s : Nat),
      (d1 - d2 = 1 → streakLoop (d1 :: d2 :: rest) s = streakLoop (d2 :: rest) (s + 1)) ∧
      (1 < d1 - d2 → streakLoop (d1 :: d2 :: rest) s = s)) :=
  streak_calculation 5 [⟨"s", "m", "a", 86400000, "u", "r"⟩] (by simp)

/-- C5: membership in a search result is the conjunction of exact
case-insensitive language equality, case-insensitive any-topic substring
match, and the inclusive star threshold (each applied when its filter is
present and non-empty, per the JS truthiness guards); on the concrete set
with languages Go/Go/Python and stars 5/0/10, `language = "go"` with
`min_stars = 1` selects exactly the first repository. -/
theorem search_filter_conjunction (filters : SearchFilters)
    (repos : List RepositoryMetadata) (r : RepositoryMetadata) :
    (r ∈ searchProjectsByTech filters repos ↔
      r ∈ repos ∧
      (∀ lang, filters.language = some lang → lang ≠ "" →
        ∃ l, r.language = some l ∧ lowerString l = lowerString lang) ∧
      (∀ top, filters.topic = some top → top ≠ "" →
        ∃ t ∈ r.topics, strIncludes (lowerString t) (lowerString top) = true) ∧
      (∀ m, filters.min_stars = some m → m ≤ r.stars)) ∧
    searchProjectsByTech
      { language := some "go", topic := none, min_stars := some 1,
        sort_by := none, order := none }
      [⟨"r1", "u/r1", none, "", 5, 0, some "Go", [], 0, 0, 0, none⟩,
       ⟨"r2", "u/r2", none, "", 0, 0, some "Go", [], 0, 0, 0, none⟩,
       ⟨"r3", "u/r3", none, "", 10, 0, some "Python", [], 0, 0, 0, none⟩]
    = [⟨"r1", "u/r1", none, "", 5, 0, some "Go", [], 0, 0, 0, none⟩] := by
  constructor
  · have hsort : ∀ (l : List RepositoryMetadata),
        (r ∈ match filters.sort_by with
          | some sf => sortWith (searchLe sf (filters.order.getD .desc)) l
          | none => l) ↔ r ∈ l := by
      intro l
      cases filters.sort_by <;> simp [mem_sortWith]
    have hlangpred : ∀ (lang : String) (repo : RepositoryMetadata),
        ((match repo.language with
          | some l => lowerString l == lowerString lang
          | none => false) = true) ↔
        ∃ l, repo.language = some l ∧ lowerString l = lowerString lang := by
      intro lang repo
      cases h : repo.language <;> simp [h]
    rw [searchProjectsByTech]
    cases hL : filters.language with
    | none =>
      cases hT : filters.topic with
      | none =>
        cases hM : filters.min_stars with
        | none => simp [hL, hT, hM, hsort]
        | some m => simp [hL, hT, hM, hsort, and_assoc]
      | some top =>
        by_cases htop : top = ""
        · cases hM : filters.min_stars with
          | none => simp [hL, hT, hM, htop, hsort]
          | some m => simp [hL, hT, hM, htop, hsort, and_assoc]
        · cases hM : filters.min_stars with
          | none => simp [hL, hT, hM, htop, hsort, List.any_eq_true, and_assoc]
          | some m => (simp [hL, hT, hM, htop, hsort, List.any_eq_true, and_assoc]; tauto)
    | some lang =>
      by_cases hlang : lang = ""
      · cases hT : filters.topic with
        | none =>
          cases hM : filters.min_stars with
          | none => simp [hL, hT, hM, hlang, hsort]
          | some m => simp [hL, hT, hM, hlang, hsort, and_assoc]
        | some top =>
          by_cases htop : top = ""
          · cases hM : filters.min_stars with
            | none => simp [hL, hT, hM, hlang, htop, hsort]
            | some m => simp [hL, hT, hM, hlang, htop, hsort, and_assoc]
          · cases hM : filters.min_stars with
            | none => simp [hL, hT, hM, hlang, htop, hsort, List.any_eq_true, and_assoc]
            | some m => (simp [hL, hT, hM, hlang, htop, hsort, List.any_eq_true, and_assoc]; tauto)
      · cases hT : filters.topic with
        | none =>
          cases hM : filters.min_stars with
          | none => simp [hL, hT, hM, hlang, hsort, hlangpred, and_assoc]
          | some m => (simp [hL, hT, hM, hlang, hsort, hlangpred, and_assoc]; tauto)
        | some top =>
          by_cases htop : top = ""
          · cases hM : filters.min_stars with
            | none => simp [hL, hT, hM, hlang, htop, hsort, hlangpred, and_assoc]
            | some m => (simp [hL, hT, hM, hlang, htop, hsort, hlangpred, and_assoc]; tauto)
          · cases hM : filters.min_stars with
            | none =>
              simp [hL, hT, hM, hlang, htop, hsort, hlangpred,
                List.any_eq_true, and_assoc]
              tauto
            | some m =>
              simp [hL, hT, hM, hlang, htop, hsort, hlangpred,
                List.any_eq_true, and_assoc]
              tauto
  · decide

theorem maxF_cons (f : RepositoryMetadata → Nat) (a : RepositoryMetadata)
    (l : List RepositoryMetadata) : maxF f (a :: l) = max (f a) (maxF f l) := rfl

theorem le_maxF_head (f : RepositoryMetadata → Nat) (a : RepositoryMetadata)
    (l : List RepositoryMetadata) : f a ≤ maxF f (a :: l) := by
  rw [maxF_cons]; exact le_max_left _ _

/-- The left fold of the source's `reduce` with seed `a` selects the earliest
element of `a :: rs` attaining the maximum count. -/
theorem foldl_max_find (f : RepositoryMetadata → Nat) :
    ∀ (rs : List RepositoryMetadata) (a : RepositoryMetadata),
    (a :: rs).find? (fun r => decide (f r = maxF f (a :: rs)))
      = some (rs.foldl (fun mx r => if f r > f mx then r else mx) a) := by
  intro rs
  induction rs with
  | nil =>
    intro a
    simp [List.find?, maxF]
  | cons x xs ih =>
    intro a
    by_cases h : f a < f x
    · have hstep : (x :: xs).foldl (fun mx r => if f r > f mx then r else mx) a
          = xs.foldl (fun mx r => if f r > f mx then r else mx) x := by
        simp [List.foldl_cons, h]
      rw [hstep]
      have hxle : f x ≤ maxF f (x :: xs) := le_maxF_head f x xs
      have hM : maxF f (a :: x :: xs) = maxF f (x :: xs) := by
        rw [maxF_cons f a (x :: xs)]
        omega
      have hane : ¬ (f a = maxF f (a :: x :: xs)) := by
        rw [hM]
        omega
      rw [List.find?_cons_of_neg _ (by simp [hane])]
      rw [hM]
      exact ih x
    · have hstep : (x :: xs).foldl (fun mx r => if f r > f mx then r else mx) a
          = xs.foldl (fun mx r => if f r > f mx then r else mx) a := by
        simp [List.foldl_cons, h]
      rw [hstep]
      have hM : maxF f (a :: x :: xs) = maxF f (a :: xs) := by
        rw [maxF_cons f a (x :: xs), maxF_cons f x xs, maxF_cons f a xs]
        omega
      have hIH := ih a
      by_cases ha : f a = maxF f (a :: x :: xs)
      · have ha2 : f a = maxF f (a :: xs) := hM ▸ ha
        rw [List.find?_cons_of_pos _ (by simp [ha])]
        rw [List.find?_cons_of_pos _ (by simp [ha2])] at hIH
        exact hIH
      · have haM : f a ≤ maxF f (a :: x :: xs) := le_maxF_head f a (x :: xs)
        have hxM : ¬ (f x = maxF f (a :: x :: xs)) := by omega
        have ha2 : ¬ (f a = maxF f (a :: xs)) := by
          rw [← hM]
          exact ha
        rw [List.find?_cons_of_neg _ (by simp [ha]),
          List.find?_cons_of_neg _ (by simp [hxM])]
        rw [List.find?_cons_of_neg _ (by simp [ha2])] at hIH
        rw [hM]
        exact hIH

/-- C8: `most_starred_repo` is the earliest repository in list order whose
star count equals the maximum star count (first-seen wins ties under the left
fold), and symmetrically `most_forked_repo` for fork counts; both are null on
the empty list. -/
theorem most_starred_forked_first_max (repos : List RepositoryMetadata) :
    mostStarredRepo repos
      = repos.find? (fun r => decide (r.stars = maxF (fun x => x.stars) repos)) ∧
    mostForkedRepo repos
      = repos.find? (fun r => decide (r.forks = maxF (fun x => x.forks) repos)) ∧
    mostStarredRepo [] = none ∧ mostForkedRepo [] = none := by
  have key : ∀ (f : RepositoryMetadata → Nat),
      reduceMaxBy f repos = repos.find? (fun r => decide (f r = maxF f repos)) := by
    intro f
    cases repos with
    | nil => rfl
    | cons r0 rs =>
      rw [reduceMaxBy]
      have h0 : (r0 :: rs).foldl (fun mx r => if f r > f mx then r else mx) r0
          = rs.foldl (fun mx r => if f r > f mx then r else mx) r0 := by
        simp [List.foldl_cons]
      rw [h0, ← foldl_max_find f rs r0]
  exact ⟨key _, key _, rfl, rfl⟩

theorem countP_flatten {α : Type} (p : α → Bool) (L : List (List α)) :
    L.flatten.countP p = (L.map (fun l => l.countP p)).sum := by
  induction L with
  | nil => simp
  | cons l ls ih =>
    simp only [List.flatten_cons, List.map_cons, List.sum_cons,
      List.countP_append p l ls.flatten, ih]

/-- The per-repository commit slice built in the cross-repository branch of
`getRecentCommits`. -/
theorem crossRepo_component_countP (commitsOf : String → Except String (List RawCommit))
    (nm : String) (repo : RepositoryMetadata) :
    ((match commitsOf repo.name with
      | .ok data => (data.take 5).map (fun c => mkCommitMetadata c repo.name)
      | .error _ => []).countP (fun (c : CommitMetadata) => c.repository == nm))
    ≤ if repo.name = nm then 5 else 0 := by
  cases hc : commitsOf repo.name with
  | error e => simp
  | ok data =>
    by_cases hn : repo.name = nm
    · rw [if_pos hn]
      calc ((data.take 5).map (fun c => mkCommitMetadata c repo.name)).countP
            (fun c => c.repository == nm)
          ≤ ((data.take 5).map (fun c => mkCommitMetadata c repo.name)).length :=
            List.countP_le_length _
        _ = (data.take 5).length := List.length_map _ _
        _ ≤ 5 := by simp
    · simp only [if_neg hn]
      have hzero : ((data.take 5).map (fun c => mkCommitMetadata c repo.name)).countP
          (fun c => c.repository == nm) = 0 := by
        apply List.countP_eq_zero.mpr
        intro c hc2
        obtain ⟨rc, _, rfl⟩ := List.mem_map.mp hc2
        simp [mkCommitMetadata, hn]
      exact le_of_eq hzero

theorem sum_component_countP_le (commitsOf : String → Except String (List RawCommit))
    (nm : String) :
    ∀ (l : List RepositoryMetadata), (l.map (fun r => r.name)).Nodup →
    ((l.map (fun repo =>
        match commitsOf repo.name with
        | .ok data => (data.take 5).map (fun c => mkCommitMetadata c repo.name)
        | .error _ => [])).map (fun cl => cl.countP (fun c => c.repository == nm))).sum
      ≤ 5 := by
  intro l
  induction l with
  | nil => intro _; simp
  | cons r rs ih =>
    intro hnd
    simp only [List.map_cons, List.sum_cons]
    rw [List.map_cons] at hnd
    have hnd2 := hnd.of_cons
    have hhead := crossRepo_component_countP commitsOf nm r
    by_cases hn : r.name = nm
    · have hzero : ((rs.map (fun repo =>
          match commitsOf repo.name with
          | .ok data => (data.take 5).map (fun c => mkCommitMetadata c repo.name)
          | .error _ => [])).map (fun cl => cl.countP (fun c => c.repository == nm))).sum
            = 0 := by
        apply List.sum_eq_zero
        intro x hx
        simp only [List.map_map, List.mem_map] at hx
        obtain ⟨repo, hrepo, rfl⟩ := hx
        have hne : repo.name ≠ nm := by
          intro heq
          have : r.name ∈ rs.map (fun r => r.name) := by
            rw [hn, ← heq]
            exact List.mem_map_of_mem _ hrepo
          exact (List.nodup_cons.mp hnd).1 this
        have := crossRepo_component_countP commitsOf nm repo
        rw [if_neg hne] at this
        simpa using this
      rw [if_pos hn] at hhead
      omega
    · rw [if_neg hn] at hhead
      have := ih hnd2
      omega

/-- C4: `getRecentCommits` with no repository name depends only on the first
10 repositories in list order (so repositories beyond the tenth are never
touched), contributes at most 5 commits per repository (with distinct
repository names), and returns the merged list sorted descending by commit
date, truncated to at most `limit` entries. -/
theorem cross_repo_commit_fanout (repos : List RepositoryMetadata)
    (commitsOf : String → Except String (List RawCommit)) (limit : Nat)
    (hnodup : (repos.map (fun r => r.name)).Nodup) :
    crossRepoCommits repos commitsOf limit
      = crossRepoCommits (repos.take 10) commitsOf limit ∧
    (crossRepoCommits repos commitsOf limit).length ≤ limit ∧
    (crossRepoCommits repos commitsOf limit).Pairwise
      (fun a b => b.date ≤ a.date) ∧
    (∀ nm, (crossRepoCommits repos commitsOf limit).countP
      (fun c => c.repository == nm) ≤ 5) := by
  refine ⟨?_, ?_, ?_, ?_⟩
  · simp [crossRepoCommits, List.take_take]
  · simp [crossRepoCommits]
  · have hsorted := sortWith_pairwise
      (fun a b : CommitMetadata => decide (b.date ≤ a.date))
      (fun a b => by
        rcases le_total b.date a.date with h | h
        · exact Or.inl (by simp [h])
        · exact Or.inr (by simp [h]))
      (fun a b c hab hbc => by
        simp only [decide_eq_true_eq] at *
        omega)
      ((repos.take 10).map (fun repo =>
        match commitsOf repo.name with
        | .ok data => (data.take 5).map (fun c => mkCommitMetadata c repo.name)
        | .error _ => [])).flatten
    have htake := hsorted.sublist (List.take_sublist limit _)
    exact htake.imp (by simp)
  · intro nm
    have hsub : List.Sublist
        ((sortWith (fun a b : CommitMetadata => decide (b.date ≤ a.date))
          ((repos.take 10).map (fun repo =>
            match commitsOf repo.name with
            | .ok data => (data.take 5).map (fun c => mkCommitMetadata c repo.name)
            | .error _ => [])).flatten).take limit)
        (sortWith (fun a b : CommitMetadata => decide (b.date ≤ a.date))
          ((repos.take 10).map (fun repo =>
            match commitsOf repo.name with
            | .ok data => (data.take 5).map (fun c => mkCommitMetadata c repo.name)
            | .error _ => [])).flatten) := List.take_sublist limit _
    have hperm := sortWith_perm (fun a b : CommitMetadata => decide (b.date ≤ a.date))
      ((repos.take 10).map (fun repo =>
        match commitsOf repo.name with
        | .ok data => (data.take 5).map (fun c => mkCommitMetadata c repo.name)
        | .error _ => [])).flatten
    have hnd10 : ((repos.take 10).map (fun r => r.name)).Nodup := by
      rw [List.map_take]
      exact List.Nodup.sublist (List.take_sublist 10 _) hnodup
    calc (crossRepoCommits repos commitsOf limit).countP (fun c => c.repository == nm)
        ≤ (sortWith (fun a b : CommitMetadata => decide (b.date ≤ a.date))
            ((repos.take 10).map (fun repo =>
              match commitsOf repo.name with
              | .ok data => (data.take 5).map (fun c => mkCommitMetadata c repo.name)
              | .error _ => [])).flatten).countP (fun c => c.repository == nm) :=
          hsub.countP_le _
      _ = (((repos.take 10).map (fun repo =>
              match commitsOf repo.name with
              | .ok data => (data.take 5).map (fun c => mkCommitMetadata c repo.name)
              | .error _ => [])).flatten).countP (fun c => c.repository == nm) :=
          hperm.countP_eq _
      _ = (((repos.take 10).map (fun repo =>
              match commitsOf repo.name with
              | .ok data => (data.take 5).map (fun c => mkCommitMetadata c repo.name)
              | .error _ => [])).map
            (fun cl => cl.countP (fun c => c.repository == nm))).sum :=
          countP_flatten _ _
      _ ≤ 5 := sum_component_countP_le commitsOf nm (repos.take 10) hnd10

/-- Closed witness for `cross_repo_commit_fanout`, over a twelve-repository
list: only the first ten are fetched. -/
theorem cross_repo_commit_fanout_witness :
    crossRepoCommits
        ((List.range 12).map (fun i =>
          (⟨toString i, toString i, none, "", 0, 0, none, [], 0, 0, 0, none⟩ :
            RepositoryMetadata)))
        (fun _ => .ok [⟨"s", "m", some "a", 86400000, "u"⟩]) 3
      = crossRepoCommits
        (((List.range 12).map (fun i =>
          (⟨toString i, toString i, none, "", 0, 0, none, [], 0, 0, 0, none⟩ :
            RepositoryMetadata))).take 10)
        (fun _ => .ok [⟨"s", "m", some "a", 86400000, "u"⟩]) 3 ∧
    (crossRepoCommits
        ((List.range 12).map (fun i =>
          (⟨toString i, toString i, none, "", 0, 0, none, [], 0, 0, 0, none⟩ :
            RepositoryMetadata)))
        (fun _ => .ok [⟨"s", "m", some "a", 86400000, "u"⟩]) 3).length ≤ 3 ∧
    (crossRepoCommits
        ((List.range 12).map (fun i =>
          (⟨toString i, toString i, none, "", 0, 0, none, [], 0, 0, 0, none⟩ :
            RepositoryMetadata)))
        (fun _ => .ok [⟨"s", "m", some "a", 86400000, "u"⟩]) 3).Pairwise
      (fun a b => b.date ≤ a.date) ∧
    (∀ nm, (crossRepoCommits
        ((List.range 12).map (fun i =>
          (⟨toString i, toString i, none, "", 0, 0, none, [], 0, 0, 0, none⟩ :
            RepositoryMetadata)))
        (fun _ => .ok [⟨"s", "m", some "a", 86400000, "u"⟩]) 3).countP
      (fun c => c.repository == nm) ≤ 5) :=
  cross_repo_commit_fanout
    ((List.range 12).map (fun i =>
      (⟨toString i, toString i, none, "", 0, 0, none, [], 0, 0, 0, none⟩ :
        RepositoryMetadata)))
    (fun _ => .ok [⟨"s", "m", some "a", 86400000, "u"⟩]) 3
    (by decide)

/-- C10: a failure fetching commits from any individual repository in the
cross-repository mode is swallowed — the run is identical to one in which
that repository simply has no commits, and the operation as a whole still
succeeds. -/
theorem per_repo_failure_swallowed (repos : List RepositoryMetadata)
    (commitsOf : String → Except String (List RawCommit)) (limit : Nat)
    (rn e : String) (hfail : commitsOf rn = .error e) :
    crossRepoCommits repos commitsOf limit
      = crossRepoCommits repos
          (fun n => if n = rn then .ok [] else commitsOf n) limit ∧
    clientGetRecentCommits none (.ok repos) commitsOf limit
      = .ok (crossRepoCommits repos commitsOf limit) := by
  constructor
  · simp only [crossRepoCommits]
    congr 1
    congr 1
    congr 1
    apply List.map_congr_left
    intro repo _
    by_cases hr : repo.name = rn
    · rw [hr, hfail]
      simp
    · simp [hr]
  · rfl

/-- Closed witness for `per_repo_failure_swallowed`: the second of two
repositories fails, the first still delivers its commits. -/
theorem per_repo_failure_swallowed_witness :
    crossRepoCommits
        [(⟨"a", "a", none, "", 0, 0, none, [], 0, 0, 0, none⟩ : RepositoryMetadata),
         (⟨"b", "b", none, "", 0, 0, none, [], 0, 0, 0, none⟩ : RepositoryMetadata)]
        (fun n => if n = "b" then .error "boom" else .ok [⟨"s", "m", some "a", 0, "u"⟩]) 50
      = crossRepoCommits
        [(⟨"a", "a", none, "", 0, 0, none, [], 0, 0, 0, none⟩ : RepositoryMetadata),
         (⟨"b", "b", none, "", 0, 0, none, [], 0, 0, 0, none⟩ : RepositoryMetadata)]
        (fun n => if n = "b" then .ok []
          else (fun m => if m = "b" then .error "boom"
            else .ok [⟨"s", "m", some "a", 0, "u"⟩]) n) 50 ∧
    clientGetRecentCommits none
      (.ok [(⟨"a", "a", none, "", 0, 0, none, [], 0, 0, 0, none⟩ : RepositoryMetadata),
            (⟨"b", "b", none, "", 0, 0, none, [], 0, 0, 0, none⟩ : RepositoryMetadata)])
      (fun n => if n = "b" then .error "boom" else .ok [⟨"s", "m", some "a", 0, "u"⟩]) 50
      = .ok (crossRepoCommits
        [(⟨"a", "a", none, "", 0, 0, none, [], 0, 0, 0, none⟩ : RepositoryMetadata),
         (⟨"b", "b", none, "", 0, 0, none, [], 0, 0, 0, none⟩ : RepositoryMetadata)]
        (fun n => if n = "b" then .error "boom" else .ok [⟨"s", "m", some "a", 0, "u"⟩]) 50) :=
  per_repo_failure_swallowed _ _ 50 "b" "boom" (by rfl)

/-- C3: every public tool operation returns the uniform result envelope for
every input and every fetch outcome — in the embedding each tool is a total
function, so no internal failure escapes: an `ok` outcome yields
`success = true` with a data payload and the ISO timestamp, any `error`
outcome (or invalid argument) yields `success = false` with the tool's error
code string, a message, and the timestamp. -/
theorem uniform_envelope_all_tools
    (a1 : ListRepositoriesArgs) (r1 : Except String (List RepositoryMetadata))
    (a2 : GetRepositoryDetailsArgs) (r2 : Except String RepositoryMetadata)
    (rc : Option String) (rf : Except String String)
    (a3 : GetRecentCommitsArgs) (r3 : Except String (List RepositoryMetadata))
    (commitsOf : String → Except String (List RawCommit))
    (a4 : GetRepositoryStatsArgs) (r4 : Except String (List RepositoryMetadata))
    (a5 : SearchProjectsByTechArgs) (r5 : Except String (List RepositoryMetadata))
    (a6 : GetContributionActivityArgs) (r6 : Except String (List CommitMetadata))
    (now : String) :
    envelopeOk (listRepositoriesTool a1 r1 now) "LIST_REPOSITORIES_ERROR" now ∧
    envelopeOk (getRepositoryDetailsTool a2 r2 rc rf now)
      "GET_REPOSITORY_DETAILS_ERROR" now ∧
    envelopeOk (getRecentCommitsTool a3 r3 commitsOf now)
      "GET_RECENT_COMMITS_ERROR" now ∧
    envelopeOk (getRepositoryStatsTool a4 r4 now)
      "GET_REPOSITORY_STATS_ERROR" now ∧
    envelopeOk (searchProjectsByTechTool a5 r5 now) "SEARCH_PROJECTS_ERROR" now ∧
    envelopeOk (getContributionActivityTool a6 r6 now)
      "GET_CONTRIBUTION_ACTIVITY_ERROR" now := by
  refine ⟨?_, ?_, ?_, ?_, ?_, ?_⟩
  · cases r1 <;> simp [listRepositoriesTool, envelopeOk, createErrorResponse]
  · by_cases hname : a2.repository_name = ""
    · simp [getRepositoryDetailsTool, hname, envelopeOk, createErrorResponse]
    · cases r2 <;>
        simp [getRepositoryDetailsTool, hname, envelopeOk, createErrorResponse]
  · cases hres : clientGetRecentCommits a3.repository_name r3 commitsOf
        (a3.limit.getD 50) <;>
      simp [getRecentCommitsTool, hres, envelopeOk, createErrorResponse]
  · cases r4 <;> simp [getRepositoryStatsTool, envelopeOk, createErrorResponse]
  · cases r5 <;> simp [searchProjectsByTechTool, envelopeOk, createErrorResponse]
  · cases r6 <;>
      simp [getContributionActivityTool, envelopeOk, createErrorResponse]

/-- Two-decimal rounding moves each percentage by at most 1/200 from the
exact value `100 c / n`. -/
theorem calculatePercentage_bound (c n : Nat) (hn : n ≠ 0) :
    |calculatePercentage c n - 100 * (c : ℚ) / (n : ℚ)| ≤ 1 / 200 := by
  rw [calculatePercentage, if_neg hn]
  have hnq : ((n : ℚ)) ≠ 0 := Nat.cast_ne_zero.mpr hn
  have hx : 100 * (c : ℚ) / (n : ℚ) = ((c : ℚ) / (n : ℚ) * 100 * 100) / 100 := by
    field_simp
    ring
  have h3 : |((⌊(c : ℚ) / (n : ℚ) * 100 * 100 + 1/2⌋ : ℤ) : ℚ)
      - (c : ℚ) / (n : ℚ) * 100 * 100| ≤ 1/2 := by
    rw [abs_le]
    constructor
    · linarith [Int.sub_one_lt_floor ((c : ℚ) / (n : ℚ) * 100 * 100 + 1/2)]
    · linarith [Int.floor_le ((c : ℚ) / (n : ℚ) * 100 * 100 + 1/2)]
  rw [hx, div_sub_div_same, abs_div]
  have h100 : |(100 : ℚ)| = 100 := by norm_num
  rw [h100]
  linarith

theorem addLanguage_totalNames (m : List (String × List String)) (lang name : String) :
    ((addLanguage m lang name).map (fun e => e.2.length)).sum
      = (m.map (fun e => e.2.length)).sum + 1 := by
  induction m with
  | nil => simp [addLanguage]
  | cons p rest ih =>
    obtain ⟨l, ns⟩ := p
    by_cases h : l = lang
    · simp only [addLanguage, if_pos h, List.map_cons, List.sum_cons]
      simp
      omega
    · simp only [addLanguage, if_neg h, List.map_cons, List.sum_cons, ih]
      omega

/-- The total number of bucketed repository names equals the number of
repositories with a truthy primary language. -/
theorem buildLanguageMap_totalNames :
    ∀ (repos : List RepositoryMetadata) (m : List (String × List String)),
    ((repos.foldl (fun m repo =>
        match repo.language with
        | some lang => if lang = "" then m else addLanguage m lang repo.name
        | none => m) m).map (fun e => e.2.length)).sum
      = (m.map (fun e => e.2.length)).sum + repos.countP hasLanguage := by
  intro repos
  induction repos with
  | nil => intro m; simp
  | cons r rs ih =>
    intro m
    simp only [List.foldl_cons]
    cases hL : r.language with
    | none =>
      rw [ih]
      simp [List.countP_cons, hasLanguage, hL]
    | some lang =>
      have hred : (match some lang with
          | some lg => if lg = "" then m else addLanguage m lg r.name
          | none => m) = if lang = "" then m else addLanguage m lang r.name := rfl
      rw [hred]
      by_cases h : lang = ""
      · simp only [if_pos h]
        rw [ih]
        simp [List.countP_cons, hasLanguage, hL, h]
      · simp only [if_neg h]
        rw [ih, addLanguage_totalNames]
        simp [List.countP_cons, hasLanguage, hL, h]
        omega

/-- C1 (amended): the language-breakdown percentages of `getRepositoryStats`
sum to `100 × (repositories with a truthy language) / total_repositories`, up
to a rounding drift of at most `1/200` per breakdown entry; the breakdown is
empty when the repository set is empty.  (The spec's "sums to 100 ± 0.1"
holds only when every repository has a language and the breakdown has at most
20 entries — see the counterexample.) -/
theorem language_percentage_sum (repos : List RepositoryMetadata)
    (hne : repos ≠ []) :
    languagesOf ([] : List RepositoryMetadata) = [] ∧
    |((languagesOf repos).map (fun s => s.percentage)).sum
        - 100 * (repos.countP hasLanguage : ℚ) / (repos.length : ℚ)|
      ≤ ((languagesOf repos).length : ℚ) / 200 := by
  refine ⟨rfl, ?_⟩
  have hn : repos.length ≠ 0 := by simpa using hne
  have hunfold : languagesOf repos
      = sortWith (fun a b => decide (b.count ≤ a.count))
        ((buildLanguageMap repos).map (fun e =>
          ({ language := e.1, count := e.2.length, repositories := e.2,
             percentage := calculatePercentage e.2.length repos.length } :
            LanguageStats))) := rfl
  have hperm := (sortWith_perm
      (fun a b : LanguageStats => decide (b.count ≤ a.count))
      ((buildLanguageMap repos).map (fun e =>
        ({ language := e.1, count := e.2.length, repositories := e.2,
           percentage := calculatePercentage e.2.length repos.length } :
          LanguageStats)))).map (fun s : LanguageStats => s.percentage)
  have hsum : ((languagesOf repos).map (fun s => s.percentage)).sum
      = ((buildLanguageMap repos).map
          (fun e => calculatePercentage e.2.length repos.length)).sum := by
    rw [hunfold, hperm.sum_eq, List.map_map]
    rfl
  have hk : ((languagesOf repos).length : ℚ)
      = ((buildLanguageMap repos).length : ℚ) := by
    rw [hunfold, (sortWith_perm _ _).length_eq, List.length_map]
  have h3 : ((buildLanguageMap repos).map (fun e => e.2.length)).sum
      = repos.countP hasLanguage := by
    have := buildLanguageMap_totalNames repos []
    simpa [buildLanguageMap] using this
  have hexact : ((buildLanguageMap repos).map
      (fun e => 100 * (e.2.length : ℚ) / (repos.length : ℚ))).sum
      = 100 * (repos.countP hasLanguage : ℚ) / (repos.length : ℚ) := by
    have hfun : (fun e : String × List String =>
        100 * (e.2.length : ℚ) / (repos.length : ℚ))
        = fun e => (100 / (repos.length : ℚ)) * (e.2.length : ℚ) := by
      funext e
      ring
    rw [hfun, List.sum_map_mul_left]
    have h2 : ∀ (L : List (String × List String)),
        (L.map (fun e => ((e.2.length : Nat) : ℚ))).sum
        = (((L.map (fun e => e.2.length)).sum : Nat) : ℚ) := by
      intro L
      induction L with
      | nil => simp
      | cons a L2 ih =>
        simp only [List.map_cons, List.sum_cons, ih]
        push_cast
        ring
    rw [h2 (buildLanguageMap repos), h3]
    ring
  rw [hsum, ← hexact, hk]
  have habs := abs_list_sum_sub_le
    (fun e : String × List String => calculatePercentage e.2.length repos.length)
    (fun e : String × List String => 100 * (e.2.length : ℚ) / (repos.length : ℚ))
    (buildLanguageMap repos)
  refine le_trans habs ?_
  have hstep : ((buildLanguageMap repos).map (fun e =>
      |calculatePercentage e.2.length repos.length
        - 100 * (e.2.length : ℚ) / (repos.length : ℚ)|)).sum
      ≤ ((buildLanguageMap repos).map (fun e =>
          |calculatePercentage e.2.length repos.length
            - 100 * (e.2.length : ℚ) / (repos.length : ℚ)|)).length • ((1 : ℚ)/200) := by
    apply List.sum_le_card_nsmul
    intro x hx
    obtain ⟨e, _, rfl⟩ := List.mem_map.mp hx
    exact calculatePercentage_bound e.2.length repos.length hn
  refine le_trans hstep ?_
  rw [List.length_map, nsmul_eq_mul]
  ring_nf
  exact le_refl _

/-- Closed witness for `language_percentage_sum`: a single-repository set in
one language has breakdown percentage sum exactly 100. -/
theorem language_percentage_sum_witness :
    languagesOf ([] : List RepositoryMetadata) = [] ∧
    |((languagesOf
        [(⟨"r1", "u/r1", none, "", 0, 0, some "Go", [], 0, 0, 0, none⟩ :
          RepositoryMetadata)]).map (fun s => s.percentage)).sum
        - 100 * (([(⟨"r1", "u/r1", none, "", 0, 0, some "Go", [], 0, 0, 0,
            none⟩ : RepositoryMetadata)].countP hasLanguage : ℚ))
          / (([(⟨"r1", "u/r1", none, "", 0, 0, some "Go", [], 0, 0, 0,
            none⟩ : RepositoryMetadata)].length : ℚ))|
      ≤ (((languagesOf
          [(⟨"r1", "u/r1", none, "", 0, 0, some "Go", [], 0, 0, 0, none⟩ :
            RepositoryMetadata)]).length : ℚ)) / 200 :=
  language_percentage_sum _ (by simp)

/-- C1 counterexample: with one Go repository and one repository of null
language, `total_repositories = 2 > 0` but the breakdown percentages sum to
50, not 100 ± 0.1 — the divisor is the full repository count while only
repositories with a language are grouped. -/
theorem language_percentage_sum_counterexample :
    (getRepositoryStats
      [(⟨"r1", "u/r1", none, "", 0, 0, some "Go", [], 0, 0, 0, none⟩ :
        RepositoryMetadata),
       (⟨"r2", "u/r2", none, "", 0, 0, none, [], 0, 0, 0, none⟩ :
        RepositoryMetadata)]).total_repositories = 2 ∧
    ((languagesOf
      [(⟨"r1", "u/r1", none, "", 0, 0, some "Go", [], 0, 0, 0, none⟩ :
        RepositoryMetadata),
       (⟨"r2", "u/r2", none, "", 0, 0, none, [], 0, 0, 0, none⟩ :
        RepositoryMetadata)]).map (fun s => s.percentage)).sum = 50 ∧
    ¬ (|((languagesOf
      [(⟨"r1", "u/r1", none, "", 0, 0, some "Go", [], 0, 0, 0, none⟩ :
        RepositoryMetadata),
       (⟨"r2", "u/r2", none, "", 0, 0, none, [], 0, 0, 0, none⟩ :
        RepositoryMetadata)]).map (fun s => s.percentage)).sum - 100| ≤ 1/10) := by
  refine ⟨rfl, ?_, ?_⟩
  · norm_num [languagesOf, buildLanguageMap, addLanguage, sortWith,
      insertSorted, calculatePercentage]
  · norm_num [languagesOf, buildLanguageMap, addLanguage, sortWith,
      insertSorted, calculatePercentage]
